import Mathlib

/-!
Verification development for the misuse-case generation service (`src/app.py`).

The service is a single Flask handler `generate_misuse_cases` plus a small
logging helper `APILogger`.  We shallowly embed the handler as a pure Lean
function over:
  * `JsonVal`      — JSON values (numbers are kept as their source lexeme,
                     since no claim depends on float arithmetic);
  * `GatewayResult`— the outcome of the single outbound LLM call
                     (`client.chat.completions.create`): raw text or a raised
                     exception message;
  * an explicit duration parameter standing for the wall-clock readings used
    only by the logger.
`json.loads` is embedded as the executable parser `jsonParse`, the regex
rescue at line 192 of app.py as `findRescue`, and the field-filling loop at
lines 180-184 with Python's `in` / item-assignment semantics preserved
(including the `TypeError`s raised on non-dict elements, which escape the
inner `except json.JSONDecodeError` and are caught at line 219).
-/

/-- JSON values.  Numbers keep their decoded lexeme (the claims under study
never depend on numeric arithmetic, only on structure); `obj` is an
insertion-ordered association list, duplicate keys merged at parse time the
way Python `dict` does (first position kept, last value wins). -/
inductive JsonVal where
  | null : JsonVal
  | bool : Bool → JsonVal
  | num : String → JsonVal
  | str : String → JsonVal
  | arr : List JsonVal → JsonVal
  | obj : List (String × JsonVal) → JsonVal
deriving Inhabited

/-- Python `dict` lookup (`d.get(k)`): first matching key. -/
def lookupField : List (String × JsonVal) → String → Option JsonVal
  | [], _ => none
  | (k, v) :: rest, key => if k == key then some v else lookupField rest key

/-- Python `dict` item assignment `d[k] = v`: replace in place when the key
exists, append otherwise. -/
def objInsert : List (String × JsonVal) → String → JsonVal → List (String × JsonVal)
  | [], key, v => [(key, v)]
  | (k, w) :: rest, key, v =>
      if k == key then (k, v) :: rest else (k, w) :: objInsert rest key v

/-- Field lookup on a JSON value (none when not an object). -/
def JsonVal.getField : JsonVal → String → Option JsonVal
  | .obj fs, k => lookupField fs k
  | _, _ => none

/-- Is the value a JSON object (a Python `dict`)? -/
def JsonVal.isObj : JsonVal → Bool
  | .obj _ => true
  | _ => false

/-- Python `d.get(k, default)` on an object's field list. -/
def getFieldD (fs : List (String × JsonVal)) (k : String) (dflt : JsonVal) : JsonVal :=
  (lookupField fs k).getD dflt

/-- A JSON number is falsy in Python iff its value is zero, i.e. it has at
least one digit and every mantissa digit (before any exponent marker) is 0.
`NaN` / `Infinity` / `-Infinity` have no digits and are truthy. -/
def jsonNumIsZero (lex : String) : Bool :=
  let mantissa := lex.toList.takeWhile (fun c => !(c == 'e' || c == 'E'))
  let digits := mantissa.filter Char.isDigit
  !digits.isEmpty && digits.all (fun c => c == '0')

/-- Python truthiness (`if not use_case_name`) of a decoded JSON value. -/
def jsonTruthy : JsonVal → Bool
  | .null => false
  | .bool b => b
  | .num lex => !(jsonNumIsZero lex)
  | .str s => !s.isEmpty
  | .arr l => !l.isEmpty
  | .obj fs => !fs.isEmpty

/-- Does `hay` start with `pre`? -/
def startsWithList : List Char → List Char → Bool
  | _, [] => true
  | [], _ :: _ => false
  | a :: as, b :: bs => a == b && startsWithList as bs

/-- Substring test on character lists (Python `needle in hay` for `str`). -/
def containsSub : List Char → List Char → Bool
  | [], needle => startsWithList [] needle
  | c :: t, needle => startsWithList (c :: t) needle || containsSub t needle

/-! ## Strict JSON decoding (`json.loads`)

Executable embedding of CPython's default `json.loads`: JSON whitespace
handling, strings with the standard escapes (including `\uXXXX` and surrogate
pairs), numbers (lexeme kept), the literals `null` / `true` / `false` and the
CPython extensions `NaN` / `Infinity` / `-Infinity`, arrays and objects with
string keys and no trailing commas.  Lone surrogates (which CPython keeps in
the decoded `str`) are unrepresentable in `Char` and map to `Char.ofNat`'s
fallback; no claim exercises them. -/

/-- JSON whitespace (`json.decoder.WHITESPACE`: space, tab, newline, return). -/
def jsonWsChar (c : Char) : Bool := c == ' ' || c == '\t' || c == '\n' || c == '\r'

/-- Skip JSON whitespace. -/
def skipJsonWs (cs : List Char) : List Char := cs.dropWhile jsonWsChar

/-- Hexadecimal digit value. -/
def hexVal (c : Char) : Option Nat :=
  if '0' ≤ c && c ≤ '9' then some (c.toNat - 48)
  else if 'a' ≤ c && c ≤ 'f' then some (c.toNat - 87)
  else if 'A' ≤ c && c ≤ 'F' then some (c.toNat - 55)
  else none

/-- Four hex digits (the `XXXX` of a `\uXXXX` escape). -/
def parseHex4 : List Char → Option (Nat × List Char)
  | a :: b :: c :: d :: rest => do
      let va ← hexVal a
      let vb ← hexVal b
      let vc ← hexVal c
      let vd ← hexVal d
      pure (va * 4096 + vb * 256 + vc * 16 + vd, rest)
  | _ => none

/-- Body of a JSON string after the opening quote; returns the decoded string
and the input remaining after the closing quote.  Strict mode: literal
control characters (codepoint < 32) are rejected. -/
def parseStringBody : Nat → List Char → List Char → Option (String × List Char)
  | 0, _, _ => none
  | _ + 1, [], _ => none
  | fuel + 1, c :: rest, acc =>
    if c == '"' then some (String.mk acc.reverse, rest)
    else if c == '\\' then
      match rest with
      | [] => none
      | e :: rest2 =>
        if e == '"' then parseStringBody fuel rest2 ('"' :: acc)
        else if e == '\\' then parseStringBody fuel rest2 ('\\' :: acc)
        else if e == '/' then parseStringBody fuel rest2 ('/' :: acc)
        else if e == 'b' then parseStringBody fuel rest2 (Char.ofNat 8 :: acc)
        else if e == 'f' then parseStringBody fuel rest2 (Char.ofNat 12 :: acc)
        else if e == 'n' then parseStringBody fuel rest2 ('\n' :: acc)
        else if e == 'r' then parseStringBody fuel rest2 ('\r' :: acc)
        else if e == 't' then parseStringBody fuel rest2 ('\t' :: acc)
        else if e == 'u' then
          match parseHex4 rest2 with
          | none => none
          | some (n, rest3) =>
            if 55296 ≤ n ∧ n ≤ 56319 then
              -- high surrogate: try to pair it with a following low surrogate
              match rest3 with
              | '\\' :: 'u' :: rest4 =>
                match parseHex4 rest4 with
                | some (m, rest5) =>
                  if 56320 ≤ m ∧ m ≤ 57343 then
                    parseStringBody fuel rest5
                      (Char.ofNat (65536 + (n - 55296) * 1024 + (m - 56320)) :: acc)
                  else parseStringBody fuel rest3 (Char.ofNat n :: acc)
                | none => parseStringBody fuel rest3 (Char.ofNat n :: acc)
              | _ => parseStringBody fuel rest3 (Char.ofNat n :: acc)
            else parseStringBody fuel rest3 (Char.ofNat n :: acc)
        else none
    else if c.toNat < 32 then none
    else parseStringBody fuel rest (c :: acc)

/-- Does the input start with the given literal word?  Returns the rest. -/
def dropLit (cs : List Char) (lit : List Char) : Option (List Char) :=
  if startsWithList cs lit then some (cs.drop lit.length) else none

/-- JSON number lexeme: `-? (0 | [1-9][0-9]*) (. [0-9]+)? ([eE] [+-]? [0-9]+)?`.
Returns the lexeme and the rest. -/
def parseNumber (cs : List Char) : Option (String × List Char) :=
  let (sign, cs1) :=
    match cs with
    | '-' :: r => (['-'], r)
    | _ => (([] : List Char), cs)
  let intStep : Option (List Char × List Char) :=
    match cs1 with
    | [] => none
    | c :: r =>
      if c == '0' then some (sign ++ ['0'], r)
      else if c.isDigit then
        let ds := r.takeWhile Char.isDigit
        some (sign ++ c :: ds, r.drop ds.length)
      else none
  intStep.bind fun (intPart, rest) =>
    -- optional fraction
    let (withFrac, rest2) :=
      match rest with
      | '.' :: r =>
        let ds := r.takeWhile Char.isDigit
        if ds.isEmpty then (none, rest) else (some (intPart ++ '.' :: ds), r.drop ds.length)
      | _ => (none, rest)
    let (lexeme, rest3) :=
      match withFrac with
      | some l => (l, rest2)
      | none => (intPart, rest)
    -- optional exponent
    let (lexeme2, rest4) :=
      match rest3 with
      | e :: r =>
        if e == 'e' || e == 'E' then
          let (sgn, r2) :=
            match r with
            | '+' :: rr => (['+'], rr)
            | '-' :: rr => (['-'], rr)
            | _ => (([] : List Char), r)
          let ds := r2.takeWhile Char.isDigit
          if ds.isEmpty then (lexeme, rest3) else (lexeme ++ e :: sgn ++ ds, r2.drop ds.length)
        else (lexeme, rest3)
      | [] => (lexeme, rest3)
    some (String.mk lexeme2, rest4)

mutual

/-- One JSON value at the head of the input (no leading whitespace). -/
def parseValue : Nat → List Char → Option (JsonVal × List Char)
  | 0, _ => none
  | fuel + 1, cs =>
    match cs with
    | [] => none
    | c :: rest =>
      if c == '"' then
        match parseStringBody (rest.length + 1) rest [] with
        | some (s, r) => some (.str s, r)
        | none => none
      else if c == '[' then parseArrayStart fuel (skipJsonWs rest)
      else if c == '\x7b' then parseObjStart fuel (skipJsonWs rest)
      else
        match dropLit cs ['n', 'u', 'l', 'l'] with
        | some r => some (.null, r)
        | none =>
        match dropLit cs ['t', 'r', 'u', 'e'] with
        | some r => some (.bool true, r)
        | none =>
        match dropLit cs ['f', 'a', 'l', 's', 'e'] with
        | some r => some (.bool false, r)
        | none =>
        match dropLit cs ['N', 'a', 'N'] with
        | some r => some (.num "NaN", r)
        | none =>
        match dropLit cs ['I', 'n', 'f', 'i', 'n', 'i', 't', 'y'] with
        | some r => some (.num "Infinity", r)
        | none =>
        match dropLit cs ['-', 'I', 'n', 'f', 'i', 'n', 'i', 't', 'y'] with
        | some r => some (.num "-Infinity", r)
        | none =>
        match parseNumber cs with
        | some (lex, r) => some (.num lex, r)
        | none => none

/-- Array contents after `[` and leading whitespace. -/
def parseArrayStart : Nat → List Char → Option (JsonVal × List Char)
  | 0, _ => none
  | fuel + 1, cs =>
    match cs with
    | ']' :: r => some (.arr [], r)
    | _ => parseArrayLoop fuel cs []

/-- Array elements, accumulated in reverse. -/
def parseArrayLoop : Nat → List Char → List JsonVal → Option (JsonVal × List Char)
  | 0, _, _ => none
  | fuel + 1, cs, acc =>
    match parseValue fuel cs with
    | none => none
    | some (v, r) =>
      match skipJsonWs r with
      | ',' :: r2 => parseArrayLoop fuel (skipJsonWs r2) (v :: acc)
      | ']' :: r2 => some (.arr (v :: acc).reverse, r2)
      | _ => none

/-- Object contents after the opening brace and leading whitespace. -/
def parseObjStart : Nat → List Char → Option (JsonVal × List Char)
  | 0, _ => none
  | fuel + 1, cs =>
    match cs with
    | c :: r =>
      if c == '\x7d' then some (.obj [], r)
      else parseObjLoop fuel cs []
    | [] => none

/-- Object members; duplicate keys merged as Python `dict` insertion does. -/
def parseObjLoop : Nat → List Char → List (String × JsonVal) → Option (JsonVal × List Char)
  | 0, _, _ => none
  | fuel + 1, cs, acc =>
    match cs with
    | '"' :: rest =>
      match parseStringBody (rest.length + 1) rest [] with
      | none => none
      | some (key, r1) =>
        match skipJsonWs r1 with
        | ':' :: r2 =>
          match parseValue fuel (skipJsonWs r2) with
          | none => none
          | some (v, r3) =>
            let acc2 := objInsert acc key v
            match skipJsonWs r3 with
            | ',' :: r4 => parseObjLoop fuel (skipJsonWs r4) acc2
            | c :: r4 => if c == '\x7d' then some (.obj acc2, r4) else none
            | [] => none
        | _ => none
    | _ => none

end

/-- Embedding of `json.loads`: decode the whole text, allowing surrounding whitespace,
rejecting trailing garbage. -/
def jsonParse (s : String) : Option JsonVal :=
  match parseValue (4 * s.length + 16) (skipJsonWs s.toList) with
  | some (v, rest) => if (skipJsonWs rest).isEmpty then some v else none
  | none => none

/-! ## Pattern-extraction rescue

Embedding of `re.search(r'\[\s*\x7b.*\x7d\s*\]', result, re.DOTALL)` at
app.py line 192.  With DOTALL, `.` matches every character, so a match exists
from a start position iff that position holds `[`, then a run of whitespace,
then an opening brace, with some closing brace later that is followed by
whitespace and `]`.  Leftmost semantics pick the smallest such start; the
greedy `.*` picks the largest such closing position. -/

/-- Python `\s` on ASCII text (space, tab, newline, return, vertical tab,
form feed). -/
def reWsChar (c : Char) : Bool :=
  c == ' ' || c == '\t' || c == '\n' || c == '\r' || c == '\x0b' || c == '\x0c'

/-- The prefix of the input reaching through the LAST occurrence of a closing
brace followed by `\s*` and `]` (the greedy tail `\x7d\s*\]` of the rescue
regex); `none` when no such occurrence exists. -/
def lastCloser : List Char → Option (List Char)
  | [] => none
  | c :: rest =>
    match lastCloser rest with
    | some l => some (c :: l)
    | none =>
      if c == '\x7d' then
        match rest.dropWhile reWsChar with
        | d :: _ =>
          if d == ']' then some (c :: rest.takeWhile reWsChar ++ [']']) else none
        | [] => none
      else none

/-- Leftmost match of the rescue regex: scan start positions left to right;
at a start `[` followed by whitespace and an opening brace, complete with the
greedy closing tail. -/
def findRescueAux : List Char → Option (List Char)
  | [] => none
  | c :: rest =>
    if c == '[' then
      match rest.dropWhile reWsChar with
      | d :: body =>
        if d == '\x7b' then
          match lastCloser body with
          | some closer => some ('[' :: rest.takeWhile reWsChar ++ '\x7b' :: closer)
          | none => findRescueAux rest
        else findRescueAux rest
      | [] => findRescueAux rest
    else findRescueAux rest

/-- The `json_match.group(0)` of app.py line 192/195: the first (greedy) substring
shaped like a JSON array of objects, if any. -/
def findRescue (s : String) : Option String :=
  (findRescueAux s.toList).map String.mk

/-! ## Structure validation (app.py lines 180-184)

The loop of app.py lines 180-184 (for each enumerated misuse_case, for each
required field name, if the field is not in the value, assign the placeholder
to it) is embedded with Python's semantics for `in` and item assignment
on each possible decoded value.  A raised `TypeError` is modelled as
`Except.error`; it escapes the inner `except json.JSONDecodeError` (line 188)
and is caught by the outer `except Exception` (line 219). -/

/-- The four required fields, in source order. -/
def requiredFields : List String := ["name", "description", "actor", "impact"]

/-- Placeholder inserted for a missing field. -/
def placeholderFor (field : String) : String :=
  "Informasi " ++ field ++ " tidak tersedia"

/-- Python `field in x` for a decoded JSON value: key lookup on a dict,
substring test on a str, element equality on a list, `TypeError` otherwise
(int, float, bool, None are not iterable). -/
def pyContains (x : JsonVal) (field : String) : Except String Bool :=
  match x with
  | .obj fs => .ok (fs.any (fun kv => kv.1 == field))
  | .str s => .ok (containsSub s.toList field.toList)
  | .arr l => .ok (l.any (fun e => match e with | .str s => s == field | _ => false))
  | _ => .error "TypeError: argument of type is not iterable"

/-- Python `x[field] = v` for a string key: dict assignment succeeds (replace
in place or append); every other decoded value raises `TypeError`. -/
def pySetItem (x : JsonVal) (field : String) (v : JsonVal) : Except String JsonVal :=
  match x with
  | .obj fs => .ok (.obj (objInsert fs field v))
  | _ => .error "TypeError: object does not support item assignment"

/-- The inner field loop of app.py lines 182-184 on one iterated element. -/
def fillFields : JsonVal → List String → Except String JsonVal
  | x, [] => .ok x
  | x, f :: rest => do
    let present ← pyContains x f
    let x2 ← if present then pure x else pySetItem x f (.str (placeholderFor f))
    fillFields x2 rest

/-- The outer loop of app.py line 180, `for i, misuse_case in
enumerate(misuse_cases)`, on each shape `json.loads` can return: a list
iterates elements, a dict iterates its keys (strings), a str iterates its
characters (1-character strings); int, float, bool and None raise `TypeError`
at `enumerate`.  Key and character iteration cannot be assigned to, so the
iterated value is returned unchanged when no `TypeError` occurs. -/
def normalizeLoop (v : JsonVal) : Except String JsonVal :=
  match v with
  | .arr elems => (elems.mapM (fun e => fillFields e requiredFields)).map (fun l => .arr l)
  | .obj fs => (fs.mapM (fun kv => fillFields (.str kv.1) requiredFields)).map (fun _ => v)
  | .str s =>
      ((s.toList).mapM (fun c => fillFields (.str (String.mk [c])) requiredFields)).map
        (fun _ => v)
  | _ => .error "TypeError: object is not iterable"

/-! ## Request logging (`APILogger`) -/

/-- One chat message (`{"role": ..., "content": ...}` in app.py lines
141-144; both fields are always present there). -/
structure ChatMessage where
  role : String
  content : String
deriving Inhabited

/-- The preview computed by `APILogger.log_request` (app.py lines 41-44):
the first 100 characters of the last message's content, with an ellipsis
appended when the content is longer; nothing when the message list is
empty. -/
def logRequestPreview (messages : List ChatMessage) : Option String :=
  match messages.getLast? with
  | none => none
  | some m =>
      some (String.mk (m.content.toList.take 100) ++
            (if 100 < m.content.length then "..." else ""))

/-- Observable logging / network events of one request, in order.  Durations
are whatever the wall clock produced; they are threaded through as an opaque
`Nat` so that independence of the response from the clock is provable. -/
inductive Event where
  | logRequest (model : String) (messageCount : Nat) (preview : Option String)
  | gatewayCall
  | logResponse (duration : Nat) (status : String)
      (contentLength : Option Nat) (error : Option String)

/-! ## Prompt construction (app.py lines 118-144) -/

/-- Python `str()` of a decoded JSON value, as used by the f-string
interpolation in the user prompt.  Integer lexemes agree with CPython;
floats and nested containers are rendered from the lexeme / structure,
which no claim inspects. -/
def pyStr : JsonVal → String
  | .null => "None"
  | .bool b => if b then "True" else "False"
  | .num lex => lex
  | .str s => s
  | .arr l => "[" ++ String.intercalate ", " (pyReprList l) ++ "]"
  | .obj fs => "\x7b" ++ String.intercalate ", " (pyReprFields fs) ++ "\x7d"
where
  /-- Python `repr` of each element, as `str` of a list shows. -/
  pyReprList : List JsonVal → List String
    | [] => []
    | x :: rest => pyRepr x :: pyReprList rest
  pyReprFields : List (String × JsonVal) → List String
    | [] => []
    | (k, v) :: rest => ("\x27" ++ k ++ "\x27: " ++ pyRepr v) :: pyReprFields rest
  pyRepr : JsonVal → String
    | .null => "None"
    | .bool b => if b then "True" else "False"
    | .num lex => lex
    | .str s => "\x27" ++ s ++ "\x27"
    | .arr l => "[" ++ String.intercalate ", " (pyReprList l) ++ "]"
    | .obj fs => "\x7b" ++ String.intercalate ", " (pyReprFields fs) ++ "\x7d"

/-- Python `', '.join(other_use_cases)` (app.py line 136): joins an iterable of
strings; a list element that is not a string raises `TypeError`, a plain
string joins its characters, a dict joins its keys, anything else is not
iterable.  (The `TypeError` messages come from the Python runtime and are
modelled by fixed text.) -/
def pyJoin : JsonVal → Except String String
  | .arr l => do
      let ss ← l.mapM (fun e =>
        match e with
        | .str s => Except.ok s
        | _ => Except.error "TypeError: sequence item: expected str instance")
      pure (String.intercalate ", " ss)
  | .str s => .ok (String.intercalate ", " (s.toList.map (fun c => String.mk [c])))
  | .obj fs => .ok (String.intercalate ", " (fs.map (fun kv => kv.1)))
  | _ => .error "TypeError: can only join an iterable"

/-- The hardcoded model identifier (app.py line 71). -/
def MODEL : String := "groq:meta-llama/llama-4-maverick-17b-128e-instruct"

/-- The constant system prompt (app.py lines 119-132), including the
indentation that the triple-quoted literal embeds. -/
def system_prompt : String :=
  "Anda adalah seorang ahli keamanan yang mengkhususkan diri dalam mengidentifikasi potensi kasus penyalahgunaan (misuse case) untuk sistem perangkat lunak.\n        Diberikan sebuah use case, identifikasi 3-5 skenario penyalahgunaan potensial yang dapat mengancamnya.\n        Format respons Anda sebagai array JSON dengan struktur berikut:\n        [\n            \x7b\n                \"name\": \"Nama singkat kasus penyalahgunaan\",\n                \"description\": \"Deskripsi detail yang menjelaskan skenario penyalahgunaan\",\n                \"actor\": \"Jenis aktor berbahaya yang mungkin melakukan ini\",\n                \"impact\": \"Dampak potensial dari kasus penyalahgunaan ini\"\n            \x7d,\n            ...\n        ]\n        PENTING: Respons Anda HARUS sepenuhnya dalam Bahasa Indonesia, termasuk semua nilai dalam JSON.\n        Hanya berikan array JSON saja tanpa tambahan kalimat lain."

/-- The user prompt (app.py lines 134-139): interpolates the use case name,
system name and the joined related use cases (or the literal marker when the
sequence is falsy); `pyJoin` may raise, which propagates to the outer
handler. -/
def buildUserPrompt (useCase sysName other : JsonVal) : Except String String := do
  let otherStr ← if jsonTruthy other then pyJoin other else pure "Tidak ada"
  pure ("Use Case: " ++ pyStr useCase ++
        "\n        Sistem: " ++ pyStr sysName ++
        "\n        Use Case Terkait: " ++ otherStr ++
        "\n        Harap generate 3-5 kasus penyalahgunaan (misuse case) realistis yang dapat mengancam use case ini.\n        Fokus pada kerentanan keamanan, pola penggunaan berbahaya, dan potensi eksploitasi sistem.\n        Respons Anda HARUS dalam Bahasa Indonesia.")

/-! ## The HTTP handler (`generate_misuse_cases`, app.py lines 96-242) -/

/-- An HTTP response: status code plus JSON body (`jsonify(...)` defaults to
status 200 when no code is given). -/
structure Response where
  statusCode : Nat
  body : JsonVal

/-- Everything observable about one handler run. -/
structure HandlerOutput where
  resp : Response
  gatewayCalled : Bool
  events : List Event

/-- Outcome of the single `client.chat.completions.create` call: the raw
completion text, or the message of the exception it raised (timeout,
transport or provider failure). -/
inductive GatewayResult where
  | ok (text : String)
  | err (msg : String)

/-- Python `type(x).__name__` of a decoded JSON value (floats recognised by
lexeme shape). -/
def pyTypeName : JsonVal → String
  | .null => "NoneType"
  | .bool _ => "bool"
  | .num lex =>
      if lex.toList.any (fun c => c == '.' || c == 'e' || c == 'E') ||
         lex == "NaN" || lex == "Infinity" || lex == "-Infinity"
      then "float" else "int"
  | .str _ => "str"
  | .arr _ => "list"
  | .obj _ => "dict"

/-- Body of the catch-all HTTP 500 response (app.py lines 238-242): note the
empty `data` array. -/
def unexpected500Body (errText : String) : JsonVal :=
  .obj [("status", .str "error"),
        ("message", .str ("Kesalahan tidak terduga: " ++ errText)),
        ("data", .arr [])]

/-- Body of the 200 "soft error" produced by the outer gateway `except`
(app.py lines 228-232). -/
def softErrorBody (errText : String) : JsonVal :=
  .obj [("status", .str "error"),
        ("message", .str ("Error saat generate kasus penyalahgunaan: " ++ errText)),
        ("data", .arr [])]

/-- Body of the 200 "soft error" returned when every parse attempt fails
(app.py lines 213-217). -/
def parseFailBody : JsonVal :=
  .obj [("status", .str "error"),
        ("message", .str "Gagal memproses respons LLM sebagai JSON"),
        ("data", .arr [])]

/-- Body of a 200 success response (app.py lines 186 and 196). -/
def successBody (data : JsonVal) : JsonVal :=
  .obj [("status", .str "success"), ("data", data)]

/-- app.py lines 105-144: read the request body (`request.json`), validate,
and build the prompt messages.  `data.get(...)` on a non-dict body raises
`AttributeError`, and a failing `', '.join` raises `TypeError`; both are
caught by the outermost `except Exception` (line 234) and become the HTTP 500
response.  A falsy `use_case_name` short-circuits to the HTTP 400 response
(lines 112-116).  No log or gateway event happens on any of these paths. -/
def preGateway (body : JsonVal) : Except Response (List ChatMessage) :=
  match body with
  | .obj fields =>
    let use_case_name := getFieldD fields "useCaseName" (.str "")
    let system_name := getFieldD fields "systemName" (.str "the system")
    let other_use_cases := getFieldD fields "otherUseCases" (.arr [])
    if jsonTruthy use_case_name then
      match buildUserPrompt use_case_name system_name other_use_cases with
      | .error e => .error ⟨500, unexpected500Body e⟩
      | .ok user_prompt =>
          .ok [⟨"system", system_prompt⟩, ⟨"user", user_prompt⟩]
    else
      .error ⟨400, .obj [("status", .str "error"),
                         ("message", .str "Nama use case diperlukan")]⟩
  | other =>
      .error ⟨500, unexpected500Body
        ("\x27" ++ pyTypeName other ++ "\x27 object has no attribute \x27get\x27")⟩

/-- app.py lines 146-232: log the request, perform the gateway call, and
process its outcome through strict parse → pattern rescue → failure, with the
outer `except Exception` (line 219) turning both gateway exceptions and
normalization `TypeError`s into the 200 soft error. -/
def gatewayPhase (messages : List ChatMessage) (gw : GatewayResult) (dur : Nat) :
    HandlerOutput :=
  let ev0 : List Event :=
    [.logRequest MODEL messages.length (logRequestPreview messages), .gatewayCall]
  match gw with
  | .err msg =>
      ⟨⟨200, softErrorBody msg⟩, true,
        ev0 ++ [.logResponse dur "error" none (some msg)]⟩
  | .ok text =>
    let ev1 := ev0 ++ [.logResponse dur "success" (some text.length) none]
    match jsonParse text with
    | some v =>
      match normalizeLoop v with
      | .ok normalized => ⟨⟨200, successBody normalized⟩, true, ev1⟩
      | .error e =>
          ⟨⟨200, softErrorBody e⟩, true,
            ev1 ++ [.logResponse dur "error" none (some e)]⟩
    | none =>
      match findRescue text with
      | some sub =>
        match jsonParse sub with
        | some v => ⟨⟨200, successBody v⟩, true, ev1⟩
        | none =>
            ⟨⟨200, parseFailBody⟩, true,
              ev1 ++ [.logResponse dur "error" none (some "Kesalahan parsing JSON"),
                      .logResponse dur "error" none
                        (some "Gagal memproses respons LLM sebagai JSON")]⟩
      | none =>
          ⟨⟨200, parseFailBody⟩, true,
            ev1 ++ [.logResponse dur "error" none
                      (some "Gagal memproses respons LLM sebagai JSON")]⟩

/-- The whole handler (app.py lines 96-242).  `available` is the process-wide
`AISUITE_AVAILABLE and client is not None` guard of lines 99-103, evaluated
before anything else; `body` is the decoded `request.json`; `gw` the outcome
of the single outbound call; `dur` the opaque clock reading used only in log
events. -/
def generate_misuse_cases (available : Bool) (body : JsonVal) (gw : GatewayResult)
    (dur : Nat) : HandlerOutput :=
  if available then
    match preGateway body with
    | .error resp => ⟨resp, false, []⟩
    | .ok messages => gatewayPhase messages gw dur
  else
    ⟨⟨503, .obj [("status", .str "error"),
                 ("message", .str "AI service tidak tersedia. Fitur ini memerlukan konfigurasi AI.")]⟩,
      false, []⟩

/-! ## Helper lemmas -/

/-- Holds when `preGateway` succeeded (validation and prompt construction raised
nothing). -/
def preGatewayOk (body : JsonVal) : Bool :=
  match preGateway body with
  | .ok _ => true
  | .error _ => false

/-- The gateway outcome is one the pipeline cannot recover data from: a
raised exception, or text that neither the strict parse nor the rescue
extraction decodes. -/
def unrecoverableOutcome : GatewayResult → Bool
  | .err _ => true
  | .ok t => (jsonParse t).isNone && ((findRescue t).bind jsonParse).isNone

theorem startsWithList_nil (l : List Char) : startsWithList l [] = true := by
  cases l <;> rfl

theorem startsWithList_append (xs ys zs : List Char) :
    startsWithList (xs ++ ys) (xs ++ zs) = startsWithList ys zs := by
  induction xs with
  | nil => rfl
  | cons a as ih => simp [startsWithList, ih]

theorem startsWithList_self_append (xs ys : List Char) :
    startsWithList (xs ++ ys) xs = true := by
  have h := startsWithList_append xs ys []
  rw [List.append_nil] at h
  rw [h, startsWithList_nil]

theorem containsSub_of_startsWithList {hay nd : List Char}
    (h : startsWithList hay nd = true) : containsSub hay nd = true := by
  cases hay with
  | nil => simpa [containsSub] using h
  | cons c t => simp [containsSub, h]

theorem containsSub_cons (c : Char) {hay nd : List Char}
    (h : containsSub hay nd = true) : containsSub (c :: hay) nd = true := by
  simp [containsSub, h]

theorem containsSub_append_left (pre : List Char) {hay nd : List Char}
    (h : containsSub hay nd = true) : containsSub (pre ++ hay) nd = true := by
  induction pre with
  | nil => simpa using h
  | cons c cs ih => exact containsSub_cons c ih

theorem containsSub_middle (pre nd suf : List Char) :
    containsSub (pre ++ (nd ++ suf)) nd = true :=
  containsSub_append_left pre (containsSub_of_startsWithList (startsWithList_self_append nd suf))

theorem lastCloser_spec : ∀ {cs l : List Char}, lastCloser cs = some l →
    startsWithList cs l = true ∧ l.getLast? = some ']' := by
  intro cs
  induction cs with
  | nil => intro l h; simp [lastCloser] at h
  | cons c rest ih =>
    intro l h
    rw [lastCloser] at h
    cases hrec : lastCloser rest with
    | some l2 =>
      rw [hrec] at h
      injection h with h
      subst h
      obtain ⟨h1, h2⟩ := ih hrec
      refine ⟨by simp [startsWithList, h1], ?_⟩
      cases l2 with
      | nil => simp at h2
      | cons x xs => rw [List.getLast?_cons_cons]; exact h2
    | none =>
      rw [hrec] at h
      cases hc : c == '\x7d' with
      | false => rw [hc] at h; simp at h
      | true =>
        rw [hc] at h
        simp only [if_true] at h
        cases hdrop : rest.dropWhile reWsChar with
        | nil => rw [hdrop] at h; simp at h
        | cons d tail =>
          rw [hdrop] at h
          dsimp only at h
          cases hd : d == ']' with
          | false => rw [hd] at h; simp at h
          | true =>
            rw [hd] at h
            simp only [if_true] at h
            injection h with h
            subst h
            have hceq : c = '\x7d' := eq_of_beq hc
            have hdeq : d = ']' := eq_of_beq hd
            subst hceq
            subst hdeq
            have hrest : rest = rest.takeWhile reWsChar ++ (']' :: tail) := by
              conv_lhs => rw [← List.takeWhile_append_dropWhile (p := reWsChar) (l := rest)]
              rw [hdrop]
            constructor
            · generalize htw : rest.takeWhile reWsChar = tw at hrest ⊢
              rw [hrest]
              rw [show ('\x7d' :: (tw ++ ']' :: tail)) = ('\x7d' :: tw) ++ (']' :: tail) from rfl]
              rw [startsWithList_append]
              simp [startsWithList, startsWithList_nil]
            · exact List.getLast?_concat _

theorem findRescueAux_spec : ∀ {cs sub : List Char}, findRescueAux cs = some sub →
    containsSub cs sub = true ∧ sub.head? = some '[' ∧ sub.getLast? = some ']' := by
  intro cs
  induction cs with
  | nil => intro sub h; simp [findRescueAux] at h
  | cons c rest ih =>
    intro sub h
    rw [findRescueAux] at h
    cases hc : c == '[' with
    | false =>
      rw [hc] at h
      simp only [Bool.false_eq_true, if_false] at h
      obtain ⟨h1, h2, h3⟩ := ih h
      exact ⟨containsSub_cons c h1, h2, h3⟩
    | true =>
      rw [hc] at h
      simp only [if_true] at h
      cases hdrop : rest.dropWhile reWsChar with
      | nil =>
        rw [hdrop] at h
        dsimp only at h
        obtain ⟨h1, h2, h3⟩ := ih h
        exact ⟨containsSub_cons c h1, h2, h3⟩
      | cons d body =>
        rw [hdrop] at h
        dsimp only at h
        cases hd : d == '\x7b' with
        | false =>
          rw [hd] at h
          simp only [Bool.false_eq_true, if_false] at h
          obtain ⟨h1, h2, h3⟩ := ih h
          exact ⟨containsSub_cons c h1, h2, h3⟩
        | true =>
          rw [hd] at h
          simp only [if_true] at h
          cases hcl : lastCloser body with
          | none =>
            rw [hcl] at h
            dsimp only at h
            obtain ⟨h1, h2, h3⟩ := ih h
            exact ⟨containsSub_cons c h1, h2, h3⟩
          | some closer =>
            rw [hcl] at h
            dsimp only at h
            injection h with h
            subst h
            obtain ⟨hcs, hlast⟩ := lastCloser_spec hcl
            have hceq : c = '[' := eq_of_beq hc
            have hdeq : d = '\x7b' := eq_of_beq hd
            subst hceq
            subst hdeq
            refine ⟨?_, ?_, ?_⟩
            · apply containsSub_of_startsWithList
              have hrest : rest = rest.takeWhile reWsChar ++ ('\x7b' :: body) := by
                conv_lhs => rw [← List.takeWhile_append_dropWhile (p := reWsChar) (l := rest)]
                rw [hdrop]
              generalize htw : rest.takeWhile reWsChar = tw at hrest ⊢
              rw [hrest]
              rw [show ('[' :: (tw ++ '\x7b' :: body)) = ('[' :: tw) ++ ('\x7b' :: body) from rfl]
              rw [startsWithList_append]
              simp [startsWithList, hcs]
            · rw [List.cons_append]
              rfl
            · cases closer with
              | nil => simp at hlast
              | cons x xs =>
                rw [List.getLast?_append, List.getLast?_cons_cons, hlast]
                rfl

/-- Parallel description of what the field loop does to one dict: walk the
field names left to right and append a placeholder entry for each name not
yet present. -/
def fillObjList : List (String × JsonVal) → List String → List (String × JsonVal)
  | fs, [] => fs
  | fs, f :: rest =>
    if fs.any (fun kv => kv.1 == f) then fillObjList fs rest
    else fillObjList (objInsert fs f (.str (placeholderFor f))) rest

/-- What the field loop leaves of one iterated element: dicts get the
missing required fields appended, everything else (when the loop does not
raise) is unchanged. -/
def normalizeObj : JsonVal → JsonVal
  | .obj fs => .obj (fillObjList fs requiredFields)
  | x => x

theorem fillFields_obj (fs : List (String × JsonVal)) (flds : List String) :
    fillFields (.obj fs) flds = .ok (.obj (fillObjList fs flds)) := by
  induction flds generalizing fs with
  | nil => rfl
  | cons f rest ih =>
    rw [fillFields, fillObjList]
    by_cases hp : fs.any (fun kv => kv.1 == f) = true
    · simp only [hp, if_true, pyContains]
      show fillFields (.obj fs) rest = _
      exact ih fs
    · simp only [Bool.not_eq_true] at hp
      simp only [hp, if_false, pyContains, pySetItem]
      show fillFields (.obj (objInsert fs f (.str (placeholderFor f)))) rest = _
      exact ih _

theorem lookupField_objInsert_self (fs : List (String × JsonVal)) (f : String) (v : JsonVal) :
    lookupField (objInsert fs f v) f = some v := by
  induction fs with
  | nil => simp [objInsert, lookupField]
  | cons kv rest ih =>
    obtain ⟨k, w⟩ := kv
    rw [objInsert]
    by_cases hk : (k == f) = true
    · simp [hk, lookupField]
    · simp only [Bool.not_eq_true] at hk
      simp [hk, lookupField, ih]

theorem lookupField_objInsert_ne (fs : List (String × JsonVal)) (f k : String) (v : JsonVal)
    (h : k ≠ f) : lookupField (objInsert fs f v) k = lookupField fs k := by
  induction fs with
  | nil =>
    simp only [objInsert, lookupField]
    have : (f == k) = false := by
      simp only [beq_eq_false_iff_ne, ne_eq]
      exact fun hf => h hf.symm
    simp [this]
  | cons kv rest ih =>
    obtain ⟨k2, w⟩ := kv
    rw [objInsert]
    by_cases hk : (k2 == f) = true
    · have hkf : k2 = f := eq_of_beq hk
      subst hkf
      have : (k2 == k) = false := by
        simp only [beq_eq_false_iff_ne, ne_eq]
        exact fun hf => h hf.symm
      simp [hk, lookupField, this]
    · simp only [Bool.not_eq_true] at hk
      simp only [hk, if_false, lookupField]
      by_cases hkk : (k2 == k) = true
      · simp [hkk]
      · simp only [Bool.not_eq_true] at hkk
        simp [hkk, ih]

theorem any_key_eq_isSome (fs : List (String × JsonVal)) (f : String) :
    fs.any (fun kv => kv.1 == f) = (lookupField fs f).isSome := by
  induction fs with
  | nil => rfl
  | cons kv rest ih =>
    obtain ⟨k, w⟩ := kv
    rw [List.any_cons, lookupField]
    by_cases hk : (k == f) = true
    · simp [hk]
    · simp only [Bool.not_eq_true] at hk
      simp [hk, ih]

theorem lookupField_fillObjList_of_some (fs : List (String × JsonVal)) (flds : List String)
    (k : String) (v : JsonVal) (h : lookupField fs k = some v) :
    lookupField (fillObjList fs flds) k = some v := by
  induction flds generalizing fs with
  | nil => exact h
  | cons f rest ih =>
    rw [fillObjList]
    by_cases hp : fs.any (fun kv => kv.1 == f) = true
    · simp only [hp, if_true]
      exact ih fs h
    · simp only [Bool.not_eq_true] at hp
      simp only [hp, Bool.false_eq_true, if_false]
      apply ih
      by_cases hk : k = f
      · subst hk
        rw [any_key_eq_isSome, h] at hp
        simp at hp
      · rw [lookupField_objInsert_ne fs f k _ hk]
        exact h

theorem lookupField_fillObjList_mem (fs : List (String × JsonVal)) (flds : List String)
    (f : String) (hmem : f ∈ flds) :
    ∃ v, lookupField (fillObjList fs flds) f = some v ∧
      (lookupField fs f = none → v = .str (placeholderFor f)) := by
  induction flds generalizing fs with
  | nil => cases hmem
  | cons g rest ih =>
    rw [fillObjList]
    by_cases hfg : f = g
    · subst hfg
      by_cases hp : fs.any (fun kv => kv.1 == f) = true
      · simp only [hp, if_true]
        rw [any_key_eq_isSome] at hp
        cases hl : lookupField fs f with
        | none => rw [hl] at hp; simp at hp
        | some w =>
          refine ⟨w, lookupField_fillObjList_of_some fs rest f w hl, ?_⟩
          intro hnone
          cases hnone
      · simp only [Bool.not_eq_true] at hp
        simp only [hp, Bool.false_eq_true, if_false]
        refine ⟨.str (placeholderFor f), ?_, fun _ => rfl⟩
        exact lookupField_fillObjList_of_some _ rest f _ (lookupField_objInsert_self fs f _)
    · have hmem2 : f ∈ rest := by
        cases hmem with
        | head => exact absurd rfl hfg
        | tail _ h => exact h
      by_cases hp : fs.any (fun kv => kv.1 == g) = true
      · simp only [hp, if_true]
        exact ih fs hmem2
      · simp only [Bool.not_eq_true] at hp
        simp only [hp, Bool.false_eq_true, if_false]
        obtain ⟨v, hv, hplace⟩ := ih (objInsert fs g (.str (placeholderFor g))) hmem2
        refine ⟨v, hv, fun hnone => ?_⟩
        apply hplace
        rw [lookupField_objInsert_ne fs g f _ hfg]
        exact hnone

theorem lookupField_fillObjList_not_mem (fs : List (String × JsonVal)) (flds : List String)
    (k : String) (h : k ∉ flds) :
    lookupField (fillObjList fs flds) k = lookupField fs k := by
  induction flds generalizing fs with
  | nil => rfl
  | cons f rest ih =>
    have hkf : k ≠ f := fun he => h (he ▸ List.mem_cons_self f rest)
    have hrest : k ∉ rest := fun he => h (List.mem_cons_of_mem f he)
    rw [fillObjList]
    by_cases hp : fs.any (fun kv => kv.1 == f) = true
    · simp only [hp, if_true]
      exact ih fs hrest
    · simp only [Bool.not_eq_true] at hp
      simp only [hp, Bool.false_eq_true, if_false]
      rw [ih _ hrest]
      exact lookupField_objInsert_ne fs f k _ hkf

theorem fillFields_nil (e : JsonVal) : fillFields e [] = .ok e := rfl

theorem fillFields_cons_str (s f : String) (rest : List String) :
    fillFields (.str s) (f :: rest) =
      if containsSub s.toList f.toList = true then fillFields (.str s) rest
      else .error "TypeError: object does not support item assignment" := by
  cases hc : containsSub s.data f.data <;>
    simp [fillFields, pyContains, pySetItem, hc, Bind.bind, Except.bind, Pure.pure, Except.pure]

theorem fillFields_cons_arr (l : List JsonVal) (f : String) (rest : List String) :
    fillFields (.arr l) (f :: rest) =
      if (l.any (fun e => match e with | .str s => s == f | _ => false)) = true then
        fillFields (.arr l) rest
      else .error "TypeError: object does not support item assignment" := by
  cases hc : l.any (fun e => match e with | .str s => s == f | _ => false) <;>
    simp [fillFields, pyContains, pySetItem, hc, Bind.bind, Except.bind, Pure.pure, Except.pure]

theorem fillFields_cons_null (f : String) (rest : List String) :
    fillFields .null (f :: rest) = .error "TypeError: argument of type is not iterable" := rfl

theorem fillFields_cons_bool (b : Bool) (f : String) (rest : List String) :
    fillFields (.bool b) (f :: rest) = .error "TypeError: argument of type is not iterable" := rfl

theorem fillFields_cons_num (n f : String) (rest : List String) :
    fillFields (.num n) (f :: rest) = .error "TypeError: argument of type is not iterable" := rfl

theorem fillFields_ok_of_not_obj : ∀ (flds : List String) (e x : JsonVal),
    e.isObj = false → fillFields e flds = .ok x → x = e := by
  intro flds
  induction flds with
  | nil =>
    intro e x _ h
    rw [fillFields_nil] at h
    injection h with h
    exact h.symm
  | cons f rest ih =>
    intro e x hobj h
    cases e with
    | obj fs => simp [JsonVal.isObj] at hobj
    | str s =>
      rw [fillFields_cons_str] at h
      by_cases hc : containsSub s.toList f.toList = true
      · rw [if_pos hc] at h
        exact ih _ _ hobj h
      · rw [if_neg hc] at h
        exact Except.noConfusion h
    | arr l =>
      rw [fillFields_cons_arr] at h
      by_cases hc : (l.any (fun e => match e with | .str s => s == f | _ => false)) = true
      · rw [if_pos hc] at h
        exact ih _ _ hobj h
      · rw [if_neg hc] at h
        exact Except.noConfusion h
    | null =>
      rw [fillFields_cons_null] at h
      exact Except.noConfusion h
    | bool b =>
      rw [fillFields_cons_bool] at h
      exact Except.noConfusion h
    | num n =>
      rw [fillFields_cons_num] at h
      exact Except.noConfusion h

theorem mapM_fillFields_mem : ∀ {elems l : List JsonVal},
    elems.mapM (fun e => fillFields e requiredFields) = .ok l →
    ∀ x ∈ l, ∃ e ∈ elems, fillFields e requiredFields = .ok x := by
  intro elems
  induction elems with
  | nil =>
    intro l h x hx
    have hl : l = [] := by
      have h2 : (Except.ok [] : Except String (List JsonVal)) = .ok l := h
      injection h2 with h2
      exact h2.symm
    subst hl
    cases hx
  | cons e rest ih =>
    intro l h x hx
    rw [List.mapM_cons] at h
    cases hf : fillFields e requiredFields with
    | error m => rw [hf] at h; exact Except.noConfusion h
    | ok y =>
      rw [hf] at h
      cases hr : rest.mapM (fun e => fillFields e requiredFields) with
      | error m => rw [hr] at h; exact Except.noConfusion h
      | ok ys =>
        rw [hr] at h
        have h2 : (Except.ok (y :: ys) : Except String (List JsonVal)) = .ok l := h
        injection h2 with h2
        subst h2
        cases hx with
        | head => exact ⟨e, List.mem_cons_self e rest, hf⟩
        | tail _ hx2 =>
          obtain ⟨e2, he2, hfe2⟩ := ih hr x hx2
          exact ⟨e2, List.mem_cons_of_mem e he2, hfe2⟩

theorem mapM_fillFields_all_obj : ∀ {elems : List JsonVal},
    (∀ e ∈ elems, e.isObj = true) →
    elems.mapM (fun e => fillFields e requiredFields) = .ok (elems.map normalizeObj) := by
  intro elems
  induction elems with
  | nil => intro _; rfl
  | cons e rest ih =>
    intro h
    have he := h e (List.mem_cons_self e rest)
    have hrest := fun x hx => h x (List.mem_cons_of_mem e hx)
    cases e with
    | obj fs =>
      rw [List.mapM_cons, fillFields_obj, ih hrest]
      rfl
    | null => simp [JsonVal.isObj] at he
    | bool b => simp [JsonVal.isObj] at he
    | num n => simp [JsonVal.isObj] at he
    | str s => simp [JsonVal.isObj] at he
    | arr l => simp [JsonVal.isObj] at he

theorem generate_ok {body : JsonVal} {msgs : List ChatMessage} (gw : GatewayResult) (d : Nat)
    (hp : preGateway body = .ok msgs) :
    generate_misuse_cases true body gw d = gatewayPhase msgs gw d := by
  simp only [generate_misuse_cases, hp, if_true]

theorem generate_error {body : JsonVal} {r : Response} (gw : GatewayResult) (d : Nat)
    (hp : preGateway body = .error r) :
    generate_misuse_cases true body gw d = ⟨r, false, []⟩ := by
  simp only [generate_misuse_cases, hp, if_true]

theorem gatewayPhase_statusCode (msgs : List ChatMessage) (gw : GatewayResult) (d : Nat) :
    (gatewayPhase msgs gw d).resp.statusCode = 200 := by
  simp only [gatewayPhase]
  split <;> first
    | rfl
    | (split <;> first
        | rfl
        | (split <;> first
            | rfl
            | (split <;> rfl)))

theorem getField_unexpected500_status (e : String) :
    (unexpected500Body e).getField "status" = some (.str "error") := rfl

theorem getField_unexpected500_message (e : String) :
    (unexpected500Body e).getField "message" =
      some (.str ("Kesalahan tidak terduga: " ++ e)) := rfl

theorem getField_unexpected500_data (e : String) :
    (unexpected500Body e).getField "data" = some (.arr []) := rfl

theorem gatewayPhase_resp_clock_indep (msgs : List ChatMessage) (gw : GatewayResult)
    (d1 d2 : Nat) : (gatewayPhase msgs gw d1).resp = (gatewayPhase msgs gw d2).resp := by
  cases gw with
  | err m => rfl
  | ok t =>
    simp only [gatewayPhase]
    cases jsonParse t with
    | some v =>
      dsimp only
      cases normalizeLoop v with
      | ok n => rfl
      | error e => rfl
    | none =>
      dsimp only
      cases findRescue t with
      | some sub =>
        dsimp only
        cases jsonParse sub with
        | some v => rfl
        | none => rfl
      | none => rfl

theorem preGateway_error_shape {body : JsonVal} {r : Response}
    (hp : preGateway body = .error r) :
    r = ⟨400, .obj [("status", .str "error"),
                    ("message", .str "Nama use case diperlukan")]⟩ ∨
    ∃ e, r = ⟨500, unexpected500Body e⟩ := by
  cases body with
  | obj fields =>
    simp only [preGateway] at hp
    by_cases ht : jsonTruthy (getFieldD fields "useCaseName" (.str "")) = true
    · rw [if_pos ht] at hp
      cases hb : buildUserPrompt (getFieldD fields "useCaseName" (.str ""))
          (getFieldD fields "systemName" (.str "the system"))
          (getFieldD fields "otherUseCases" (.arr [])) with
      | error e =>
        rw [hb] at hp
        dsimp only at hp
        injection hp with hp
        exact Or.inr ⟨e, hp.symm⟩
      | ok up =>
        rw [hb] at hp
        exact Except.noConfusion hp
    · rw [if_neg ht] at hp
      injection hp with hp
      exact Or.inl hp.symm
  | null =>
    simp only [preGateway] at hp
    injection hp with hp
    exact Or.inr ⟨_, hp.symm⟩
  | bool b =>
    simp only [preGateway] at hp
    injection hp with hp
    exact Or.inr ⟨_, hp.symm⟩
  | num n =>
    simp only [preGateway] at hp
    injection hp with hp
    exact Or.inr ⟨_, hp.symm⟩
  | str s =>
    simp only [preGateway] at hp
    injection hp with hp
    exact Or.inr ⟨_, hp.symm⟩
  | arr l =>
    simp only [preGateway] at hp
    injection hp with hp
    exact Or.inr ⟨_, hp.symm⟩

/-! ## Claim theorems -/

/-- C5: when the LLM integration is unavailable at process start, every call
to the endpoint returns HTTP 503 with status "error" immediately — for every
request body (validation never runs) and every would-be gateway outcome, with
no gateway call and no log event. -/
theorem unavailable_immediate_503 (body : JsonVal) (gw : GatewayResult) (d : Nat) :
    generate_misuse_cases false body gw d =
      ⟨⟨503, .obj [("status", .str "error"),
                   ("message", .str "AI service tidak tersedia. Fitur ini memerlukan konfigurasi AI.")]⟩,
        false, []⟩ := rfl

/-- C7: the pipeline is deterministic given the request body and the gateway
text: the HTTP response (status code, status, message and data) does not
depend on the clock readings, the only other input the handler consumes. -/
theorem pipeline_deterministic (avail : Bool) (body : JsonVal) (gw : GatewayResult)
    (d1 d2 : Nat) :
    (generate_misuse_cases avail body gw d1).resp =
      (generate_misuse_cases avail body gw d2).resp := by
  cases avail with
  | false => rfl
  | true =>
    cases hp : preGateway body with
    | error r => rw [generate_error gw d1 hp, generate_error gw d2 hp]
    | ok msgs =>
      rw [generate_ok gw d1 hp, generate_ok gw d2 hp]
      exact gatewayPhase_resp_clock_indep msgs gw d1 d2

/-- C9: whenever the handler returns the HTTP 500 unexpected-error response,
its body carries status "error", a message string, and a data field equal to
the empty array. -/
theorem http500_body_has_empty_data (body : JsonVal) (gw : GatewayResult) (d : Nat)
    (h : (generate_misuse_cases true body gw d).resp.statusCode = 500) :
    (generate_misuse_cases true body gw d).resp.body.getField "status" = some (.str "error") ∧
    (∃ m, (generate_misuse_cases true body gw d).resp.body.getField "message" = some (.str m)) ∧
    (generate_misuse_cases true body gw d).resp.body.getField "data" = some (.arr []) := by
  cases hp : preGateway body with
  | ok msgs =>
    rw [generate_ok gw d hp] at h
    rw [gatewayPhase_statusCode] at h
    exact absurd h (by decide)
  | error r =>
    rw [generate_error gw d hp] at h ⊢
    cases preGateway_error_shape hp with
    | inl h400 =>
      rw [h400] at h
      exact absurd h (by decide)
    | inr h500 =>
      obtain ⟨e, he⟩ := h500
      rw [he]
      exact ⟨rfl, ⟨_, rfl⟩, rfl⟩

/-- C9 witness: a non-object body reaches the 500 path and the theorem applies
at it. -/
theorem http500_body_has_empty_data_witness :
    (generate_misuse_cases true (.arr []) (.ok "[]") 0).resp.statusCode = 500 ∧
    ((generate_misuse_cases true (.arr []) (.ok "[]") 0).resp.body.getField "status" =
        some (.str "error") ∧
     (∃ m, (generate_misuse_cases true (.arr []) (.ok "[]") 0).resp.body.getField "message" =
        some (.str m)) ∧
     (generate_misuse_cases true (.arr []) (.ok "[]") 0).resp.body.getField "data" =
        some (.arr [])) :=
  ⟨rfl, http500_body_has_empty_data (.arr []) (.ok "[]") 0 rfl⟩

/-- C10: a request body that is valid JSON but not an object makes
`data.get(...)` raise `AttributeError`, which the outermost handler turns
into the HTTP 500 unexpected-error response (never the 400 validation error),
with no gateway call and no log event. -/
theorem non_object_body_500 (body : JsonVal) (gw : GatewayResult) (d : Nat)
    (h : body.isObj = false) :
    generate_misuse_cases true body gw d =
      ⟨⟨500, unexpected500Body
          ("\x27" ++ pyTypeName body ++ "\x27 object has no attribute \x27get\x27")⟩,
        false, []⟩ ∧
    (unexpected500Body
        ("\x27" ++ pyTypeName body ++ "\x27 object has no attribute \x27get\x27")).getField
      "status" = some (.str "error") := by
  cases body with
  | obj fs => simp [JsonVal.isObj] at h
  | null => exact ⟨rfl, rfl⟩
  | bool b => exact ⟨rfl, rfl⟩
  | num n => exact ⟨rfl, rfl⟩
  | str s => exact ⟨rfl, rfl⟩
  | arr l => exact ⟨rfl, rfl⟩

/-- C10 witness: a top-level JSON array body. -/
theorem non_object_body_500_witness :
    (JsonVal.arr []).isObj = false ∧
    (generate_misuse_cases true (.arr []) (.ok "[]") 1 =
      ⟨⟨500, unexpected500Body
          ("\x27" ++ pyTypeName (JsonVal.arr []) ++ "\x27 object has no attribute \x27get\x27")⟩,
        false, []⟩ ∧
     (unexpected500Body
        ("\x27" ++ pyTypeName (JsonVal.arr []) ++ "\x27 object has no attribute \x27get\x27")).getField
      "status" = some (.str "error")) :=
  ⟨rfl, non_object_body_500 (.arr []) (.ok "[]") 1 rfl⟩

/-- C1: on a validated request, when the gateway call raises (timeout,
transport, provider failure) or the returned text survives neither recovery
stage, the handler responds HTTP 200 (never an error status) with status
"error" and an empty data array. -/
theorem soft_error_on_unrecoverable_outcome (body : JsonVal) (gw : GatewayResult) (d : Nat)
    (hok : preGatewayOk body = true) (hfail : unrecoverableOutcome gw = true) :
    (generate_misuse_cases true body gw d).resp.statusCode = 200 ∧
    (generate_misuse_cases true body gw d).resp.body.getField "status" = some (.str "error") ∧
    (generate_misuse_cases true body gw d).resp.body.getField "data" = some (.arr []) := by
  cases hp : preGateway body with
  | error r =>
    rw [preGatewayOk, hp] at hok
    simp at hok
  | ok msgs =>
    rw [generate_ok gw d hp]
    cases gw with
    | err m => exact ⟨rfl, rfl, rfl⟩
    | ok t =>
      rw [unrecoverableOutcome] at hfail
      rw [Bool.and_eq_true] at hfail
      obtain ⟨hf1, hf2⟩ := hfail
      have h1 : jsonParse t = none := Option.isNone_iff_eq_none.mp hf1
      cases hfr : findRescue t with
      | none =>
        have hresp : (gatewayPhase msgs (.ok t) d).resp = ⟨200, parseFailBody⟩ := by
          simp only [gatewayPhase, h1, hfr]
        rw [hresp]
        exact ⟨rfl, rfl, rfl⟩
      | some sub =>
        rw [hfr] at hf2
        have h2 : jsonParse sub = none := by
          simpa using Option.isNone_iff_eq_none.mp hf2
        have hresp : (gatewayPhase msgs (.ok t) d).resp = ⟨200, parseFailBody⟩ := by
          simp only [gatewayPhase, h1, hfr, h2]
        rw [hresp]
        exact ⟨rfl, rfl, rfl⟩

/-- C1 witness: a validated request whose gateway call raises. -/
theorem soft_error_on_unrecoverable_outcome_witness :
    preGatewayOk (.obj [("useCaseName", .str "Login")]) = true ∧
    unrecoverableOutcome (.err "timeout") = true ∧
    ((generate_misuse_cases true (.obj [("useCaseName", .str "Login")]) (.err "timeout") 0).resp.statusCode = 200 ∧
     (generate_misuse_cases true (.obj [("useCaseName", .str "Login")]) (.err "timeout") 0).resp.body.getField
        "status" = some (.str "error") ∧
     (generate_misuse_cases true (.obj [("useCaseName", .str "Login")]) (.err "timeout") 0).resp.body.getField
        "data" = some (.arr [])) :=
  ⟨rfl, rfl,
    soft_error_on_unrecoverable_outcome (.obj [("useCaseName", .str "Login")]) (.err "timeout") 0 rfl rfl⟩

/-- C3 counterexample: a whitespace-only `useCaseName` (" ") is truthy in
Python, so it is NOT rejected with 400: the handler proceeds and the gateway
is called, contradicting the claim's whitespace-only case. -/
theorem whitespace_usecase_not_rejected :
    (generate_misuse_cases true (.obj [("useCaseName", .str " ")]) (.ok "[]") 0).resp.statusCode = 200 ∧
    (generate_misuse_cases true (.obj [("useCaseName", .str " ")]) (.ok "[]") 0).gatewayCalled = true :=
  ⟨rfl, rfl⟩

/-- C3 (amended): a request whose `useCaseName` is absent or the empty string
gets HTTP 400 with status "error", no gateway call and no log event;
whitespace-only strings are NOT rejected (see the counterexample). -/
theorem missing_or_empty_usecase_400 (fs : List (String × JsonVal)) (gw : GatewayResult) (d : Nat)
    (h : lookupField fs "useCaseName" = none ∨ lookupField fs "useCaseName" = some (.str "")) :
    generate_misuse_cases true (.obj fs) gw d =
      ⟨⟨400, .obj [("status", .str "error"),
                   ("message", .str "Nama use case diperlukan")]⟩,
        false, []⟩ := by
  have hfalse : jsonTruthy (getFieldD fs "useCaseName" (.str "")) = false := by
    cases h with
    | inl h => rw [getFieldD, h]; rfl
    | inr h => rw [getFieldD, h]; rfl
  have hp : preGateway (.obj fs) =
      .error ⟨400, .obj [("status", .str "error"),
                         ("message", .str "Nama use case diperlukan")]⟩ := by
    simp only [preGateway, hfalse, Bool.false_eq_true, if_false]
  exact generate_error gw d hp

/-- C3 witness: a body with no `useCaseName` key at all. -/
theorem missing_or_empty_usecase_400_witness :
    (lookupField [] "useCaseName" = none ∨
      lookupField [] "useCaseName" = some (.str "")) ∧
    generate_misuse_cases true (.obj []) (.ok "[]") 0 =
      ⟨⟨400, .obj [("status", .str "error"),
                   ("message", .str "Nama use case diperlukan")]⟩,
        false, []⟩ :=
  ⟨Or.inl rfl, missing_or_empty_usecase_400 [] (.ok "[]") 0 (Or.inl rfl)⟩

/-- C8 counterexample: for a last message of 101 characters the logged
preview has 103 characters (100 kept plus the three-character ellipsis), so
it is not "at most 100 characters". -/
theorem preview_exceeds_100_chars :
    (logRequestPreview [⟨"user", String.mk (List.replicate 101 'a')⟩]).map String.length =
      some 103 ∧ ¬ (103 ≤ 100) :=
  ⟨rfl, by decide⟩

/-- C8 (amended): the logged preview keeps at most the first 100 characters
of the last message's content and appends "..." exactly when the content is
longer than 100, so the preview itself has at most 103 characters. -/
theorem preview_truncation (messages : List ChatMessage) (m : ChatMessage)
    (h : messages.getLast? = some m) :
    logRequestPreview messages =
      some (String.mk (m.content.toList.take 100) ++
            (if 100 < m.content.length then "..." else "")) ∧
    (String.mk (m.content.toList.take 100) ++
      (if 100 < m.content.length then "..." else "")).length ≤ 103 := by
  constructor
  · rw [logRequestPreview, h]
  · rw [String.length_append]
    have h1 : (String.mk (m.content.toList.take 100)).length ≤ 100 := by
      show (m.content.toList.take 100).length ≤ 100
      rw [List.length_take]
      exact min_le_left _ _
    have h2 : (if 100 < m.content.length then ("..." : String) else "").length ≤ 3 := by
      split
      · decide
      · decide
    omega

/-- C8 witness: a short message is previewed verbatim. -/
theorem preview_truncation_witness :
    ([⟨"system", "hello"⟩] : List ChatMessage).getLast? = some ⟨"system", "hello"⟩ ∧
    (logRequestPreview [⟨"system", "hello"⟩] = some "hello" ∧
      ("hello" : String).length ≤ 103) :=
  ⟨rfl, preview_truncation [⟨"system", "hello"⟩] ⟨"system", "hello"⟩ rfl⟩

/-- C2 counterexample data: the rescue-extracted array is returned as
success without field filling, so an element can lack "description". -/
theorem rescue_path_skips_filling :
    (generate_misuse_cases true (.obj [("useCaseName", .str "Login")])
        (.ok "x [\x7b\"name\": \"X\"\x7d]") 0).resp.body.getField "status" =
      some (.str "success") ∧
    (generate_misuse_cases true (.obj [("useCaseName", .str "Login")])
        (.ok "x [\x7b\"name\": \"X\"\x7d]") 0).resp.body.getField "data" =
      some (.arr [.obj [("name", .str "X")]]) ∧
    (JsonVal.obj [("name", .str "X")]).getField "description" = none :=
  ⟨rfl, rfl, rfl⟩

/-- What the amended C2 asserts of one strict-parse run plus the general
rescue behaviour: the strict path returns exactly the loop-normalized array,
every object element of it then carries all four required fields, a field
the decoded object lacked is the placeholder naming it, the placeholder is
non-empty and embeds the field name, and the rescue path returns the decoded
value unchanged (no filling). -/
def strictFillOutcome (body : JsonVal) (t : String) (d : Nat)
    (elems l : List JsonVal) : Prop :=
  ((generate_misuse_cases true body (.ok t) d).resp = ⟨200, successBody (.arr l)⟩) ∧
  (∀ x ∈ l, x.isObj = true → ∀ f ∈ requiredFields, ∃ v, x.getField f = some v) ∧
  (∀ e ∈ elems, ∀ fs2, e = JsonVal.obj fs2 → ∀ f ∈ requiredFields,
      lookupField fs2 f = none →
      (normalizeObj e).getField f = some (.str (placeholderFor f))) ∧
  (∀ f ∈ requiredFields, (placeholderFor f).length ≠ 0 ∧
      containsSub (placeholderFor f).toList f.toList = true) ∧
  (∀ t2 sub v2, jsonParse t2 = none → findRescue t2 = some sub → jsonParse sub = some v2 →
      (generate_misuse_cases true body (.ok t2) d).resp = ⟨200, successBody v2⟩)

/-- C2 (amended): on the strict-parse success path every object element of
the returned data has all four required fields, the missing ones filled with
the non-empty placeholder embedding the field name; the pattern-extraction
rescue path returns the decoded array unchanged, without any filling. -/
theorem strict_path_fills_required_fields (body : JsonVal) (t : String) (d : Nat)
    (elems l : List JsonVal)
    (hok : preGatewayOk body = true)
    (hparse : jsonParse t = some (.arr elems))
    (hfill : elems.mapM (fun e => fillFields e requiredFields) = .ok l) :
    strictFillOutcome body t d elems l := by
  cases hp : preGateway body with
  | error r =>
    rw [preGatewayOk, hp] at hok
    simp at hok
  | ok msgs =>
    have hnorm : normalizeLoop (.arr elems) = .ok (.arr l) := by
      simp only [normalizeLoop, hfill, Except.map]
    refine ⟨?_, ?_, ?_, ?_, ?_⟩
    · rw [generate_ok (.ok t) d hp]
      simp only [gatewayPhase, hparse, hnorm]
    · intro x hx hxobj f hf
      obtain ⟨e, he, hfe⟩ := mapM_fillFields_mem hfill x hx
      cases e with
      | obj fs =>
        rw [fillFields_obj] at hfe
        injection hfe with hfe
        obtain ⟨v, hv, _⟩ := lookupField_fillObjList_mem fs requiredFields f hf
        refine ⟨v, ?_⟩
        rw [← hfe]
        exact hv
      | null =>
        rw [fillFields_ok_of_not_obj requiredFields .null x rfl hfe] at hxobj
        exact absurd hxobj (by simp [JsonVal.isObj])
      | bool b =>
        rw [fillFields_ok_of_not_obj requiredFields (.bool b) x rfl hfe] at hxobj
        exact absurd hxobj (by simp [JsonVal.isObj])
      | num n =>
        rw [fillFields_ok_of_not_obj requiredFields (.num n) x rfl hfe] at hxobj
        exact absurd hxobj (by simp [JsonVal.isObj])
      | str s =>
        rw [fillFields_ok_of_not_obj requiredFields (.str s) x rfl hfe] at hxobj
        exact absurd hxobj (by simp [JsonVal.isObj])
      | arr la =>
        rw [fillFields_ok_of_not_obj requiredFields (.arr la) x rfl hfe] at hxobj
        exact absurd hxobj (by simp [JsonVal.isObj])
    · intro e he fs2 hfs f hf hnone
      subst hfs
      show lookupField (fillObjList fs2 requiredFields) f = some (.str (placeholderFor f))
      obtain ⟨v, hv, hplace⟩ := lookupField_fillObjList_mem fs2 requiredFields f hf
      rw [hplace hnone] at hv
      exact hv
    · intro f _
      constructor
      · have hlen : (placeholderFor f).length = 10 + f.length + 15 := by
          rw [placeholderFor, String.length_append, String.length_append]
          rfl
        omega
      · have hsplit : (placeholderFor f).toList =
            ("Informasi ".toList ++ f.toList) ++ " tidak tersedia".toList := rfl
        rw [hsplit, List.append_assoc]
        exact containsSub_middle _ _ _
    · intro t2 sub v2 ht2 hfr hsub
      rw [generate_ok (.ok t2) d hp]
      simp only [gatewayPhase, ht2, hfr, hsub]

/-- C2 witness: a one-element array missing three fields, decoded by the
strict parse. -/
theorem strict_path_fills_required_fields_witness :
    preGatewayOk (.obj [("useCaseName", .str "Login")]) = true ∧
    jsonParse "[\x7b\"name\": \"X\"\x7d]" = some (.arr [.obj [("name", .str "X")]]) ∧
    ([JsonVal.obj [("name", .str "X")]].mapM (fun e => fillFields e requiredFields)) =
      .ok [.obj [("name", .str "X"),
                 ("description", .str "Informasi description tidak tersedia"),
                 ("actor", .str "Informasi actor tidak tersedia"),
                 ("impact", .str "Informasi impact tidak tersedia")]] ∧
    strictFillOutcome (.obj [("useCaseName", .str "Login")]) "[\x7b\"name\": \"X\"\x7d]" 0
      [.obj [("name", .str "X")]]
      [.obj [("name", .str "X"),
             ("description", .str "Informasi description tidak tersedia"),
             ("actor", .str "Informasi actor tidak tersedia"),
             ("impact", .str "Informasi impact tidak tersedia")]] :=
  ⟨rfl, rfl, rfl,
    strict_path_fills_required_fields _ _ 0 _ _ rfl rfl rfl⟩

/-- C4 counterexample: the text "[1]" strictly decodes as a JSON array, but
the field loop raises `TypeError` on the integer element, which the outer
`except` turns into the 200 soft error — the response is not "success" with
the normalized array. -/
theorem non_object_array_element_not_success :
    jsonParse "[1]" = some (.arr [.num "1"]) ∧
    (generate_misuse_cases true (.obj [("useCaseName", .str "Login")])
        (.ok "[1]") 0).resp.statusCode = 200 ∧
    (generate_misuse_cases true (.obj [("useCaseName", .str "Login")])
        (.ok "[1]") 0).resp.body.getField "status" = some (.str "error") ∧
    (generate_misuse_cases true (.obj [("useCaseName", .str "Login")])
        (.ok "[1]") 0).resp.body.getField "data" = some (.arr []) :=
  ⟨rfl, rfl, rfl, rfl⟩

/-- What the amended C4 asserts: the response data is exactly the decoded
array mapped element-wise (no element added, dropped or reordered), every
field already present — required or unexpected — passes through with its
value unchanged, and fields outside the four required ones are untouched in
both directions. -/
def normalizedArrayOutcome (body : JsonVal) (t : String) (d : Nat)
    (elems : List JsonVal) : Prop :=
  ((generate_misuse_cases true body (.ok t) d).resp =
    ⟨200, successBody (.arr (elems.map normalizeObj))⟩) ∧
  ((elems.map normalizeObj).length = elems.length) ∧
  (∀ e ∈ elems, ∀ k v, e.getField k = some v → (normalizeObj e).getField k = some v) ∧
  (∀ e ∈ elems, ∀ k, k ∉ requiredFields → (normalizeObj e).getField k = e.getField k)

/-- C4 (amended): for a validated request whose gateway text strictly decodes
as a JSON array of objects, the response is "success" with data equal to the
decoded array after filling missing required fields: elements are mapped in
place (none added, dropped or reordered) and every extra or present field
passes through unchanged. -/
theorem array_of_objects_normalized (body : JsonVal) (t : String) (d : Nat)
    (elems : List JsonVal)
    (hok : preGatewayOk body = true)
    (hparse : jsonParse t = some (.arr elems))
    (hobjs : ∀ e ∈ elems, e.isObj = true) :
    normalizedArrayOutcome body t d elems := by
  cases hp : preGateway body with
  | error r =>
    rw [preGatewayOk, hp] at hok
    simp at hok
  | ok msgs =>
    have hfill := mapM_fillFields_all_obj hobjs
    have hnorm : normalizeLoop (.arr elems) = .ok (.arr (elems.map normalizeObj)) := by
      simp only [normalizeLoop, hfill, Except.map]
    refine ⟨?_, List.length_map _ _, ?_, ?_⟩
    · rw [generate_ok (.ok t) d hp]
      simp only [gatewayPhase, hparse, hnorm]
    · intro e he k v hv
      cases e with
      | obj fs =>
        show lookupField (fillObjList fs requiredFields) k = some v
        exact lookupField_fillObjList_of_some fs requiredFields k v hv
      | null => exact Option.noConfusion hv
      | bool b => exact Option.noConfusion hv
      | num n => exact Option.noConfusion hv
      | str s => exact Option.noConfusion hv
      | arr la => exact Option.noConfusion hv
    · intro e he k hk
      cases e with
      | obj fs =>
        show lookupField (fillObjList fs requiredFields) k = lookupField fs k
        exact lookupField_fillObjList_not_mem fs requiredFields k hk
      | null => rfl
      | bool b => rfl
      | num n => rfl
      | str s => rfl
      | arr la => rfl

/-- C4 witness: a two-element array of objects, one with an extra field. -/
theorem array_of_objects_normalized_witness :
    preGatewayOk (.obj [("useCaseName", .str "Login")]) = true ∧
    jsonParse "[\x7b\"name\": \"A\", \"extra\": 7\x7d, \x7b\"actor\": \"B\"\x7d]" =
      some (.arr [.obj [("name", .str "A"), ("extra", .num "7")],
                  .obj [("actor", .str "B")]]) ∧
    (∀ e ∈ [JsonVal.obj [("name", .str "A"), ("extra", .num "7")],
            JsonVal.obj [("actor", .str "B")]], e.isObj = true) ∧
    normalizedArrayOutcome (.obj [("useCaseName", .str "Login")])
      "[\x7b\"name\": \"A\", \"extra\": 7\x7d, \x7b\"actor\": \"B\"\x7d]" 0
      [.obj [("name", .str "A"), ("extra", .num "7")],
       .obj [("actor", .str "B")]] :=
  ⟨rfl, rfl, by decide,
    array_of_objects_normalized _ _ 0 _ rfl rfl (by decide)⟩

/-- What C6 asserts of one run: strict decode decides the outcome when it
succeeds; only on its failure is the extracted bracket-to-brace-shaped
substring decoded, yielding success exactly when that strict decode of the
substring succeeds; when both fail the parse-failure soft error is returned
with no further rescue; and the extracted substring really is a substring of
the text that starts with an opening bracket and ends with a closing one. -/
def recoveryStagingOutcome (body : JsonVal) (t : String) (d : Nat) : Prop :=
  (∀ v n, jsonParse t = some v → normalizeLoop v = .ok n →
      (generate_misuse_cases true body (.ok t) d).resp = ⟨200, successBody n⟩) ∧
  (∀ sub v, jsonParse t = none → findRescue t = some sub → jsonParse sub = some v →
      (generate_misuse_cases true body (.ok t) d).resp = ⟨200, successBody v⟩) ∧
  (jsonParse t = none → ((findRescue t).bind jsonParse) = none →
      (generate_misuse_cases true body (.ok t) d).resp = ⟨200, parseFailBody⟩) ∧
  (∀ sub, findRescue t = some sub →
      containsSub t.toList sub.toList = true ∧ sub.toList.head? = some '[' ∧
      sub.toList.getLast? = some ']')

/-- C6: the recovery parser tries the strict decode of the whole text first;
only on failure does it strictly decode the first greedy
bracket-brace-shaped substring; when that also fails (no match or decode
error) the outcome is the parse-failure result with no further rescue. -/
theorem recovery_parser_staging (body : JsonVal) (t : String) (d : Nat)
    (hok : preGatewayOk body = true) : recoveryStagingOutcome body t d := by
  cases hp : preGateway body with
  | error r =>
    rw [preGatewayOk, hp] at hok
    simp at hok
  | ok msgs =>
    refine ⟨?_, ?_, ?_, ?_⟩
    · intro v n hv hn
      rw [generate_ok (.ok t) d hp]
      simp only [gatewayPhase, hv, hn]
    · intro sub v hnone hfr hsub
      rw [generate_ok (.ok t) d hp]
      simp only [gatewayPhase, hnone, hfr, hsub]
    · intro hnone hbind
      rw [generate_ok (.ok t) d hp]
      cases hfr : findRescue t with
      | none => simp only [gatewayPhase, hnone, hfr]
      | some sub =>
        rw [hfr] at hbind
        have h2 : jsonParse sub = none := hbind
        simp only [gatewayPhase, hnone, hfr, h2]
    · intro sub h
      rw [findRescue] at h
      cases haux : findRescueAux t.toList with
      | none => rw [haux] at h; exact Option.noConfusion h
      | some l =>
        rw [haux] at h
        injection h with h
        subst h
        exact findRescueAux_spec haux

/-- C6 witness: prose around an embedded object array. -/
theorem recovery_parser_staging_witness :
    preGatewayOk (.obj [("useCaseName", .str "Login")]) = true ∧
    recoveryStagingOutcome (.obj [("useCaseName", .str "Login")]) "x [\x7b\"a\": 1\x7d]" 0 :=
  ⟨rfl, recovery_parser_staging _ _ 0 rfl⟩
